import Mathlib

/-!
Verification of the `retryable` Go package (src/retrayable.go).

The package runs a caller-supplied fallible operation up to `retries` times.
Each loop iteration spawns the operation on a goroutine that writes its
result into a fresh buffered channel of capacity 1 (lines 152-156), then a
`select` races three arms (lines 157-171): the operation result, the timeout
channel produced by `GetTimeout` (lines 137-143), and the cancellation
context's `Done` channel. We embed one run of `Exec` as a function of the
configuration together with a *race trace*: the list recording, for each
iteration, which of the three select arms won that iteration's race. A
validity predicate ties traces to the configuration: a timeout arm can only
win when `timeout != 0` (`GetTimeout` otherwise returns a channel that never
fires), a cancellation arm can only win when the context has been cancelled,
and the operation arm carries exactly the result of the corresponding call
of the operation.

Go `error` values are modelled by `GoError`, separating errors returned by
the operation from errors freshly allocated by `errors.New` inside `Exec`
(in Go these are distinct values by identity even when messages coincide).

The per-attempt handoff channel (`make(chan error, 1)`) and Go's send/close
semantics are modelled by `ErrChan`, to settle the claims about the
cancellation branch's `close(ch)` (line 168) and late writes by the spawned
goroutine.
-/

namespace Retryable

/-- Error string constants (lines 74-77 of src/retrayable.go). -/
def CANCEL_ERROR : String := "Function cancelled"

/-- Error string constant for timeouts (line 76). -/
def TIMEOUT_ERROR : String := "Function timeout"

/-- A Go `error` value as observed in `Stats.Err`.  `fromOp` is an error
value returned by the caller's operation (opaque to the engine, passed
through unchanged); `errorsNew msg` is a fresh error allocated by
`errors.New(msg)` inside `Exec` (lines 165 and 169).  In Go these are
distinct values by identity, which the constructor tag records. -/
inductive GoError where
  | fromOp (msg : String)
  | errorsNew (msg : String)
deriving DecidableEq, Repr

/-- The error produced by the cancellation branch: `errors.New(CANCEL_ERROR)` (line 169). -/
def cancelError : GoError := GoError.errorsNew CANCEL_ERROR

/-- The error produced by the timeout branch: `errors.New(TIMEOUT_ERROR)` (line 165). -/
def timeoutError : GoError := GoError.errorsNew TIMEOUT_ERROR

/-- The `Stats` struct (lines 94-98): `Err` is `none` for a nil error. -/
structure Stats where
  Err : Option GoError
  Retries : Int
  Timeout : Int
deriving DecidableEq, Repr

/-- The `Retrayable` struct (lines 100-107).  The operation `fn` is modelled
by the sequence of results of its successive calls (`fn k` is the result of
the k-th call, 0-indexed; `none` is a nil error).  `ctxCancelled` records
whether `cancelFn` has been invoked, i.e. whether `cancelContext.Done()` is
a closed (always-ready) channel. -/
structure Retrayable where
  fn : Nat → Option String
  retries : Int
  sleep : Nat
  timeout : Nat
  ctxCancelled : Bool

/-- `Retry` (lines 178-181): fresh cancellable context, `retries = 1`. -/
def Retry (fn : Nat → Option String) : Retrayable :=
  { fn := fn, retries := 1, sleep := 0, timeout := 0, ctxCancelled := false }

/-- `SetTimeout` (lines 112-115). -/
def Retrayable.SetTimeout (r : Retrayable) (t : Nat) : Retrayable :=
  { r with timeout := t }

/-- `SetRetries` (lines 120-123). -/
def Retrayable.SetRetries (r : Retrayable) (n : Int) : Retrayable :=
  { r with retries := n }

/-- `SetSleep` (lines 127-130). -/
def Retrayable.SetSleep (r : Retrayable) (s : Nat) : Retrayable :=
  { r with sleep := s }

/-- `Cancel` (lines 133-135): invokes the stored `context.CancelFunc`,
closing the context's `Done` channel permanently. -/
def Retrayable.Cancel (r : Retrayable) : Retrayable :=
  { r with ctxCancelled := true }

/-- The observable of `GetTimeout` (lines 137-143): when `timeout == 0` it
returns `make(<-chan time.Time)`, a fresh channel nobody ever sends on, so
the timeout arm of the select can never fire; otherwise it returns
`time.After(timeout)`, which fires once. -/
def Retrayable.timeoutCanFire (r : Retrayable) : Bool :=
  r.timeout != 0

/-- Which arm of the per-iteration `select` (lines 157-171) won the race. -/
inductive RaceEvent where
  | opDone (res : Option String)
  | timedOut
  | cancelled
deriving DecidableEq, Repr

/-- Whether `e` can be the winner of iteration `i`'s race under
configuration `r`: the operation arm delivers exactly the i-th call's
result, the timeout arm requires `GetTimeout` to return a firing channel,
and the cancellation arm requires the context to be cancelled. -/
def eventValid (r : Retrayable) (i : Nat) : RaceEvent → Bool
  | RaceEvent.opDone res => res == r.fn i
  | RaceEvent.timedOut => r.timeoutCanFire
  | RaceEvent.cancelled => r.ctxCancelled

/-- All events of the trace are valid winners, positions counted from `i`. -/
def validFrom (r : Retrayable) : Nat → List RaceEvent → Bool
  | _, [] => true
  | i, e :: rest => eventValid r i e && validFrom r (i + 1) rest

/-- A race trace that configuration `r` can actually produce. -/
def validTrace (r : Retrayable) (t : List RaceEvent) : Bool :=
  validFrom r 0 t

/-- The outcome of a run of `Exec`: the returned `Stats`, the total time
spent in `time.Sleep(r.sleep)` (line 163), and the number of loop
iterations whose race resolved. -/
structure ExecResult where
  stats : Stats
  slept : Nat
  iters : Nat
deriving DecidableEq, Repr

/-- The loop of `Exec` (lines 151-172), one equation per select arm.  The
first argument is the remaining iteration budget (`retries - i` for the Go
loop `for i := 0; i < r.retries; i++`), then the accumulated `stats`, the
time slept so far, the iterations resolved so far, and the race trace.
Per iteration: `stats.Retries += 1` (line 153); then
- operation arm with nil result (lines 158-162): `stats.Err = nil`, return;
- operation arm with an error (lines 158-163): `stats.Err = err`,
  `time.Sleep(r.sleep)`, next iteration;
- timeout arm (lines 164-166): `stats.Err = errors.New(TIMEOUT_ERROR)`,
  `stats.Timeout++`, next iteration with no sleep;
- cancellation arm (lines 167-170): `stats.Err = errors.New(CANCEL_ERROR)`,
  return (the `close(ch)` on line 168 is modelled by `ErrChan` below). -/
def execFrom (r : Retrayable) : Nat → Stats → Nat → Nat → List RaceEvent → ExecResult
  | 0, s, slept, iters, _ => ⟨s, slept, iters⟩
  | _ + 1, s, slept, iters, [] => ⟨s, slept, iters⟩
  | _ + 1, s, slept, iters, RaceEvent.opDone none :: _ =>
      ⟨⟨none, s.Retries + 1, s.Timeout⟩, slept, iters + 1⟩
  | m + 1, s, slept, iters, RaceEvent.opDone (some msg) :: rest =>
      execFrom r m ⟨some (GoError.fromOp msg), s.Retries + 1, s.Timeout⟩
        (slept + r.sleep) (iters + 1) rest
  | m + 1, s, slept, iters, RaceEvent.timedOut :: rest =>
      execFrom r m ⟨some timeoutError, s.Retries + 1, s.Timeout + 1⟩
        slept (iters + 1) rest
  | _ + 1, s, slept, iters, RaceEvent.cancelled :: _ =>
      ⟨⟨some cancelError, s.Retries + 1, s.Timeout⟩, slept, iters + 1⟩

/-- `Exec` (lines 148-174): `stats := Stats{Retries: -1}` and the loop runs
at most `r.retries` iterations (`Int.toNat` because the Go loop performs no
iteration for a non-positive bound). -/
def Retrayable.Exec (r : Retrayable) (t : List RaceEvent) : ExecResult :=
  execFrom r r.retries.toNat ⟨none, -1, 0⟩ 0 0 t

/-- The per-attempt handoff channel `make(chan error, 1)` (line 152):
whether it has been closed, and its single buffer slot (holding, when full,
the operation's result — `none` for a nil error). -/
structure ErrChan where
  closed : Bool
  buf : Option (Option String)
deriving DecidableEq, Repr

/-- `make(chan error, 1)`: open and empty. -/
def mkErrChan : ErrChan := ⟨false, none⟩

/-- Outcome of a channel send `ch <- v` with no waiting receiver. -/
inductive SendResult where
  | delivered (c : ErrChan)
  | blocked
  | panicked
deriving DecidableEq, Repr

/-- Go semantics of `ch <- v` on a buffered channel with no waiting
receiver: sending on a closed channel panics; otherwise, if the capacity-1
buffer is free the send completes immediately; if the buffer is full the
sender blocks. -/
def ErrChan.send (c : ErrChan) (v : Option String) : SendResult :=
  if c.closed then SendResult.panicked
  else
    match c.buf with
    | none => SendResult.delivered ⟨c.closed, some v⟩
    | some _ => SendResult.blocked

/-- Go semantics of `close(ch)`. -/
def ErrChan.closeCh (c : ErrChan) : ErrChan :=
  { c with closed := true }

/-- State of the attempt's channel after the cancellation branch of the
select resolves while the operation is still in flight (nothing buffered):
line 168 executes `close(ch)` before `Exec` returns. -/
def chanAfterCancelBranch : ErrChan := mkErrChan.closeCh

/-- State of the attempt's channel after the timeout branch resolves while
the operation is still in flight: the timeout branch (lines 164-166) leaves
the channel untouched. -/
def chanAfterTimeoutBranch : ErrChan := mkErrChan

/-- Trace events that let the loop continue to the next iteration:
an operation error or a timeout (success and cancellation return). -/
def isNonTerminal : RaceEvent → Bool
  | RaceEvent.opDone (some _) => true
  | RaceEvent.timedOut => true
  | _ => false

/-- Trace events where the operation arm delivered a non-nil error. -/
def isFailEvent : RaceEvent → Bool
  | RaceEvent.opDone (some _) => true
  | _ => false

/-- Trace events where the timeout arm won. -/
def isTimeoutEvent : RaceEvent → Bool
  | RaceEvent.timedOut => true
  | _ => false

/-! ## Helper lemmas about the execution loop -/

/-- A trace containing only timeout wins is valid whenever `timeout != 0`. -/
lemma validFrom_replicate_timedOut (r : Retrayable) (ht : r.timeout ≠ 0) :
    ∀ (n i : Nat),
      validFrom r i (List.replicate n RaceEvent.timedOut) = true := by
  intro n
  induction n with
  | zero => intro i; rfl
  | succ n ih =>
      intro i
      rw [List.replicate_succ, validFrom, Bool.and_eq_true]
      exact ⟨by simp [eventValid, Retrayable.timeoutCanFire, ht], ih (i + 1)⟩

/-- Running the loop on a trace where every race was won by the timeout arm:
every iteration runs, each sets the timeout error, increments `Timeout`, and
applies no sleep. -/
lemma execFrom_allTimeout (r : Retrayable) :
    ∀ (n : Nat) (s : Stats) (slept iters : Nat), 1 ≤ n →
      execFrom r n s slept iters (List.replicate n RaceEvent.timedOut) =
        ⟨⟨some timeoutError, s.Retries + n, s.Timeout + n⟩, slept, iters + n⟩ := by
  intro n
  induction n with
  | zero => intro s slept iters h; exact absurd h (by omega)
  | succ n ih =>
      intro s slept iters _
      rw [List.replicate_succ]
      simp only [execFrom]
      cases Nat.eq_zero_or_pos n with
      | inl h0 =>
          subst h0
          simp only [List.replicate_zero, execFrom, ExecResult.mk.injEq, Stats.mk.injEq,
            eq_self_iff_true, true_and, and_true]
          push_cast
          omega
      | inr hpos =>
          rw [ih _ _ _ hpos]
          simp only [ExecResult.mk.injEq, Stats.mk.injEq, eq_self_iff_true, true_and, and_true]
          push_cast
          omega

/-- Running the loop on a trace where every race was won by the operation
arm delivering a non-nil error: every iteration runs, the last recorded
error is the operation's result on the final call, `Timeout` is untouched,
and every iteration sleeps `r.sleep`. -/
lemma execFrom_allFail (r : Retrayable) :
    ∀ (t : List RaceEvent) (i : Nat) (s : Stats) (slept iters : Nat),
      t ≠ [] → validFrom r i t = true → t.all isFailEvent = true →
      execFrom r t.length s slept iters t =
        ⟨⟨(r.fn (i + t.length - 1)).map GoError.fromOp, s.Retries + t.length, s.Timeout⟩,
         slept + t.length * r.sleep, iters + t.length⟩ := by
  intro t
  induction t with
  | nil => intro i s slept iters h; exact absurd rfl h
  | cons e rest ih =>
      intro i s slept iters _ hvalid hall
      rw [validFrom, Bool.and_eq_true] at hvalid
      rw [List.all_cons, Bool.and_eq_true] at hall
      obtain ⟨hv, hvrest⟩ := hvalid
      obtain ⟨he, hrest⟩ := hall
      cases e with
      | timedOut => exact absurd he (by simp [isFailEvent])
      | cancelled => exact absurd he (by simp [isFailEvent])
      | opDone res =>
          cases res with
          | none => exact absurd he (by simp [isFailEvent])
          | some msg =>
              have hfn : r.fn i = some msg := by
                rw [eventValid] at hv
                exact (beq_iff_eq.mp hv).symm
              cases rest with
              | nil =>
                  simp only [List.length_cons, List.length_nil, Nat.zero_add, execFrom,
                    Nat.add_sub_cancel, hfn, Option.map_some', Nat.cast_one, Nat.one_mul,
                    ExecResult.mk.injEq, Stats.mk.injEq, eq_self_iff_true, true_and, and_true]
              | cons e2 rest2 =>
                  simp only [List.length_cons]
                  simp only [execFrom]
                  have h2 := ih (i + 1) ⟨some (GoError.fromOp msg), s.Retries + 1, s.Timeout⟩
                    (slept + r.sleep) (iters + 1) (List.cons_ne_nil e2 rest2) hvrest hrest
                  simp only [List.length_cons] at h2
                  rw [h2]
                  have hidx : i + 1 + (rest2.length + 1) - 1 = i + (rest2.length + 1 + 1) - 1 := by
                    omega
                  rw [hidx]
                  simp only [ExecResult.mk.injEq, Stats.mk.injEq, eq_self_iff_true, true_and,
                    and_true, Nat.add_mul, Nat.one_mul]
                  push_cast
                  omega

/-- Running the loop on a prefix of failed or timed-out races followed by a
race won by the operation arm with a nil result: the loop returns at that
iteration with a nil error, ignoring whatever the trace holds afterwards.
The fuel shape `t1.length + (m + 1)` expresses that the iteration budget
strictly exceeds the prefix length. -/
lemma execFrom_success_after (r : Retrayable) :
    ∀ (t1 extra : List RaceEvent) (m : Nat) (s : Stats) (slept iters : Nat),
      t1.all isNonTerminal = true →
      execFrom r (t1.length + (m + 1)) s slept iters (t1 ++ RaceEvent.opDone none :: extra) =
        ⟨⟨none, s.Retries + t1.length + 1, s.Timeout + ((t1.filter isTimeoutEvent).length : Int)⟩,
         slept + (t1.filter isFailEvent).length * r.sleep, iters + t1.length + 1⟩ := by
  intro t1
  induction t1 with
  | nil =>
      intro extra m s slept iters _
      simp [execFrom]
  | cons e t' ih =>
      intro extra m s slept iters hall
      rw [List.all_cons, Bool.and_eq_true] at hall
      obtain ⟨he, hrest⟩ := hall
      have hfuel : (e :: t').length + (m + 1) = (t'.length + (m + 1)) + 1 := by
        simp only [List.length_cons]; omega
      rw [hfuel, List.cons_append]
      cases e with
      | cancelled => exact absurd he (by simp [isNonTerminal])
      | opDone res =>
          cases res with
          | none => exact absurd he (by simp [isNonTerminal])
          | some msg =>
              simp only [execFrom]
              rw [ih extra m ⟨some (GoError.fromOp msg), s.Retries + 1, s.Timeout⟩
                (slept + r.sleep) (iters + 1) hrest]
              simp [List.filter_cons, isTimeoutEvent, isFailEvent, Nat.add_mul]
              omega
      | timedOut =>
          simp only [execFrom]
          rw [ih extra m ⟨some timeoutError, s.Retries + 1, s.Timeout + 1⟩
            slept (iters + 1) hrest]
          simp [List.filter_cons, isTimeoutEvent, isFailEvent, Nat.add_mul]
          omega

/-- Running the loop on a prefix of failed or timed-out races followed by a
race won by the cancellation arm: the loop returns at that iteration with
the cancellation error, ignoring whatever the trace holds afterwards, and
the cancellation branch itself adds no sleep. -/
lemma execFrom_cancel_after (r : Retrayable) :
    ∀ (t1 extra : List RaceEvent) (m : Nat) (s : Stats) (slept iters : Nat),
      t1.all isNonTerminal = true →
      execFrom r (t1.length + (m + 1)) s slept iters (t1 ++ RaceEvent.cancelled :: extra) =
        ⟨⟨some cancelError, s.Retries + t1.length + 1,
           s.Timeout + ((t1.filter isTimeoutEvent).length : Int)⟩,
         slept + (t1.filter isFailEvent).length * r.sleep, iters + t1.length + 1⟩ := by
  intro t1
  induction t1 with
  | nil =>
      intro extra m s slept iters _
      simp [execFrom]
  | cons e t' ih =>
      intro extra m s slept iters hall
      rw [List.all_cons, Bool.and_eq_true] at hall
      obtain ⟨he, hrest⟩ := hall
      have hfuel : (e :: t').length + (m + 1) = (t'.length + (m + 1)) + 1 := by
        simp only [List.length_cons]; omega
      rw [hfuel, List.cons_append]
      cases e with
      | cancelled => exact absurd he (by simp [isNonTerminal])
      | opDone res =>
          cases res with
          | none => exact absurd he (by simp [isNonTerminal])
          | some msg =>
              simp only [execFrom]
              rw [ih extra m ⟨some (GoError.fromOp msg), s.Retries + 1, s.Timeout⟩
                (slept + r.sleep) (iters + 1) hrest]
              simp [List.filter_cons, isTimeoutEvent, isFailEvent, Nat.add_mul]
              omega
      | timedOut =>
          simp only [execFrom]
          rw [ih extra m ⟨some timeoutError, s.Retries + 1, s.Timeout + 1⟩
            slept (iters + 1) hrest]
          simp [List.filter_cons, isTimeoutEvent, isFailEvent, Nat.add_mul]
          omega

/-- With `timeout = 0`, no valid trace contains a race won by the timeout
arm: `GetTimeout` returns a channel that never fires. -/
lemma validFrom_no_timeout (r : Retrayable) (h0 : r.timeout = 0) :
    ∀ (t : List RaceEvent) (i : Nat), validFrom r i t = true →
      t.all (fun e => ! isTimeoutEvent e) = true := by
  intro t
  induction t with
  | nil => intro i _; rfl
  | cons e t' ih =>
      intro i hv
      rw [validFrom, Bool.and_eq_true] at hv
      rw [List.all_cons, Bool.and_eq_true]
      refine ⟨?_, ih (i + 1) hv.2⟩
      cases e with
      | opDone res => rfl
      | cancelled => rfl
      | timedOut =>
          have := hv.1
          simp [eventValid, Retrayable.timeoutCanFire, h0] at this

/-- If the trace contains no race won by the timeout arm, the loop never
touches the `Timeout` counter and never records the timeout error. -/
lemma execFrom_noTimeoutEvents (r : Retrayable) :
    ∀ (t : List RaceEvent) (m : Nat) (s : Stats) (slept iters : Nat),
      t.all (fun e => ! isTimeoutEvent e) = true →
      s.Timeout = 0 → s.Err ≠ some timeoutError →
      (execFrom r m s slept iters t).stats.Timeout = 0 ∧
      (execFrom r m s slept iters t).stats.Err ≠ some timeoutError := by
  intro t
  induction t with
  | nil =>
      intro m s slept iters _ hT hE
      cases m with
      | zero => exact ⟨hT, hE⟩
      | succ m => exact ⟨hT, hE⟩
  | cons e t' ih =>
      intro m s slept iters hall hT hE
      rw [List.all_cons, Bool.and_eq_true] at hall
      obtain ⟨he, hrest⟩ := hall
      cases m with
      | zero => exact ⟨hT, hE⟩
      | succ m =>
          cases e with
          | timedOut => simp [isTimeoutEvent] at he
          | cancelled =>
              refine ⟨hT, ?_⟩
              simp only [execFrom]
              simp [cancelError, timeoutError, CANCEL_ERROR, TIMEOUT_ERROR]
          | opDone res =>
              cases res with
              | none =>
                  refine ⟨hT, ?_⟩
                  simp only [execFrom]
                  simp
              | some msg =>
                  simp only [execFrom]
                  exact ih m ⟨some (GoError.fromOp msg), s.Retries + 1, s.Timeout⟩
                    (slept + r.sleep) (iters + 1) hrest hT (by simp [timeoutError])

/-- The loop consumes exactly one trace event per resolved iteration: the
result is a function of the consumed prefix alone, the prefix is no longer
than the trace, and no longer than the iteration budget. -/
lemma execFrom_take (r : Retrayable) :
    ∀ (t : List RaceEvent) (m : Nat) (s : Stats) (slept iters : Nat),
      ∃ k, k ≤ t.length ∧ k ≤ m ∧
        (execFrom r m s slept iters t).iters = iters + k ∧
        execFrom r m s slept iters t = execFrom r m s slept iters (List.take k t) := by
  intro t
  induction t with
  | nil =>
      intro m s slept iters
      refine ⟨0, Nat.le_refl 0, Nat.zero_le m, ?_, ?_⟩
      · cases m with
        | zero => simp [execFrom]
        | succ m => simp [execFrom]
      · rfl
  | cons e t' ih =>
      intro m s slept iters
      cases m with
      | zero =>
          exact ⟨0, Nat.zero_le _, Nat.le_refl 0, by simp [execFrom], by simp [execFrom]⟩
      | succ m =>
          cases e with
          | opDone res =>
              cases res with
              | none =>
                  refine ⟨1, by simp, by omega, ?_, ?_⟩
                  · simp [execFrom]
                  · simp [List.take, execFrom]
              | some msg =>
                  obtain ⟨k, hk1, hk2, hk3, hk4⟩ :=
                    ih m ⟨some (GoError.fromOp msg), s.Retries + 1, s.Timeout⟩
                      (slept + r.sleep) (iters + 1)
                  refine ⟨k + 1, by simpa using Nat.succ_le_succ hk1, Nat.succ_le_succ hk2,
                    ?_, ?_⟩
                  · simp only [execFrom]
                    rw [hk3]
                    omega
                  · simp only [List.take, execFrom]
                    exact hk4
          | timedOut =>
              obtain ⟨k, hk1, hk2, hk3, hk4⟩ :=
                ih m ⟨some timeoutError, s.Retries + 1, s.Timeout + 1⟩ slept (iters + 1)
              refine ⟨k + 1, by simpa using Nat.succ_le_succ hk1, Nat.succ_le_succ hk2,
                ?_, ?_⟩
              · simp only [execFrom]
                rw [hk3]
                omega
              · simp only [List.take, execFrom]
                exact hk4
          | cancelled =>
              refine ⟨1, by simp, by omega, ?_, ?_⟩
              · simp [execFrom]
              · simp [List.take, execFrom]

/-- Validity of a concatenated trace splits at the junction. -/
lemma validFrom_append (r : Retrayable) :
    ∀ (xs ys : List RaceEvent) (i : Nat),
      validFrom r i (xs ++ ys) =
        (validFrom r i xs && validFrom r (i + xs.length) ys) := by
  intro xs
  induction xs with
  | nil => intro ys i; simp [validFrom]
  | cons e xs' ih =>
      intro ys i
      simp only [List.cons_append, validFrom, List.length_cons, List.append_eq]
      rw [ih ys (i + 1)]
      have hidx : i + 1 + xs'.length = i + (xs'.length + 1) := by omega
      rw [hidx, Bool.and_assoc]

/-! ## Claim theorems -/

/-- Claim C1 — refuted by the code.  The spec requires that after the race
resolves via timeout or cancellation, the abandoned operation's eventual
write to the handoff slot completes safely, the consumer never closing the
slot.  But the cancellation branch of `Exec` executes `close(ch)` (line
168) on the attempt's channel before abandoning it, so the spawned
operation's later send panics on a closed channel; the timeout branch,
which leaves the channel open, accepts the same late send into the buffer. -/
theorem lateSend_after_cancel_close_panics :
    chanAfterCancelBranch.send (some "late operation result") = SendResult.panicked ∧
    chanAfterTimeoutBranch.send (some "late operation result") =
      SendResult.delivered ⟨false, some (some "late operation result")⟩ := by
  constructor <;> rfl

/-- Claim C2: for `retries = n` (n ≥ 1) and an operation that always fails,
with every race won by the operation arm (so no timeout and no
cancellation), `Exec` performs exactly `n` iterations and returns
`Retries = n - 1`, `Timeout = 0`, and `Err` the operation's error on the
last attempt (and each failed attempt slept `r.sleep`). -/
theorem Exec_all_attempts_fail (r : Retrayable) (t : List RaceEvent) (n : Nat)
    (hret : r.retries = (n : Int)) (hn : 1 ≤ n) (hlen : t.length = n)
    (hvalid : validTrace r t = true) (hfail : t.all isFailEvent = true) :
    r.Exec t =
      ⟨⟨(r.fn (n - 1)).map GoError.fromOp, (n : Int) - 1, 0⟩, n * r.sleep, n⟩ := by
  have hne : t ≠ [] := by
    intro h
    rw [h] at hlen
    simp only [List.length_nil] at hlen
    omega
  have hfuel : r.retries.toNat = t.length := by rw [hret, hlen]; omega
  rw [Retrayable.Exec, hfuel, execFrom_allFail r t 0 ⟨none, -1, 0⟩ 0 0 hne hvalid hfail]
  subst hlen
  simp only [Nat.zero_add, ExecResult.mk.injEq, Stats.mk.injEq, eq_self_iff_true, true_and,
    and_true]
  omega

/-- Witness for C2: two attempts, both failing with the same error. -/
theorem Exec_all_attempts_fail_witness :
    ((Retry (fun _ => some "boom")).SetRetries 2).Exec
        [RaceEvent.opDone (some "boom"), RaceEvent.opDone (some "boom")] =
      ⟨⟨some (GoError.fromOp "boom"), 1, 0⟩, 0, 2⟩ :=
  Exec_all_attempts_fail _ _ 2 (by decide) (by decide) (by decide) (by decide) (by decide)

/-- Claim C3: with a per-attempt timeout `t > 0` and every race won by the
timeout arm, the exhausted run reports `Timeout = n`, a timeout-kind error,
`Retries = n - 1`, and applies no inter-attempt sleep at all. -/
theorem Exec_all_attempts_timeout (r : Retrayable) (n : Nat)
    (hret : r.retries = (n : Int)) (hn : 1 ≤ n) (ht : r.timeout ≠ 0) :
    validTrace r (List.replicate n RaceEvent.timedOut) = true ∧
    r.Exec (List.replicate n RaceEvent.timedOut) =
      ⟨⟨some timeoutError, (n : Int) - 1, (n : Int)⟩, 0, n⟩ := by
  refine ⟨validFrom_replicate_timedOut r ht n 0, ?_⟩
  have hfuel : r.retries.toNat = n := by rw [hret]; omega
  rw [Retrayable.Exec, hfuel, execFrom_allTimeout r n ⟨none, -1, 0⟩ 0 0 hn]
  simp only [ExecResult.mk.injEq, Stats.mk.injEq, eq_self_iff_true, true_and, and_true]
  omega

/-- Witness for C3: two attempts, both timing out under a 10-unit timeout. -/
theorem Exec_all_attempts_timeout_witness :
    validTrace (((Retry (fun _ => some "slow")).SetTimeout 10).SetRetries 2)
        (List.replicate 2 RaceEvent.timedOut) = true ∧
    (((Retry (fun _ => some "slow")).SetTimeout 10).SetRetries 2).Exec
        (List.replicate 2 RaceEvent.timedOut) =
      ⟨⟨some timeoutError, 1, 2⟩, 0, 2⟩ :=
  Exec_all_attempts_timeout _ 2 (by decide) (by decide) (by decide)

/-- Claim C6 — refuted by the code.  The cancellation context is created
once in `Retry` and stored on the `Retrayable` value; `Exec` neither
creates nor resets it.  After `Cancel`, the context's `Done` channel stays
closed, so a later `Exec` on the same value can resolve its race via the
cancellation arm and terminate with the cancellation error — an outcome not
even producible on the uncancelled value. -/
theorem cancel_shared_across_Execs_counterexample :
    validTrace (((Retry (fun _ => none)).SetRetries 1).Cancel) [RaceEvent.cancelled] = true ∧
    ((((Retry (fun _ => none)).SetRetries 1).Cancel).Exec [RaceEvent.cancelled]).stats.Err =
      some cancelError ∧
    validTrace ((Retry (fun _ => none)).SetRetries 1) [RaceEvent.cancelled] = false := by
  refine ⟨rfl, rfl, rfl⟩

/-- Claim C6 amended: the cancellation signal belongs to the `Retrayable`
value, not to a single run.  Once `Cancel` has run, any later `Exec` on the
same value (with an iteration budget of at least one) can resolve its first
race via the cancellation arm and terminate with the cancellation-kind
error and `Retries = 0`; cancelling again is a no-op. -/
theorem cancel_persists_across_Execs (r : Retrayable) (n : Nat)
    (hret : r.retries = (n : Int)) (hn : 1 ≤ n) :
    validTrace r.Cancel [RaceEvent.cancelled] = true ∧
    (r.Cancel.Exec [RaceEvent.cancelled]).stats = ⟨some cancelError, 0, 0⟩ ∧
    r.Cancel.Cancel = r.Cancel := by
  refine ⟨by simp [validTrace, validFrom, eventValid, Retrayable.Cancel], ?_, rfl⟩
  have hfuel : r.Cancel.retries.toNat = (n - 1) + 1 := by
    show r.retries.toNat = (n - 1) + 1
    rw [hret]
    omega
  rw [Retrayable.Exec, hfuel]
  simp only [execFrom, Stats.mk.injEq, eq_self_iff_true, true_and, and_true]
  omega

/-- Witness for the amended C6 at the default single-attempt configuration. -/
theorem cancel_persists_across_Execs_witness :
    validTrace ((Retry (fun _ => none)).Cancel) [RaceEvent.cancelled] = true ∧
    (((Retry (fun _ => none)).Cancel).Exec [RaceEvent.cancelled]).stats =
      ⟨some cancelError, 0, 0⟩ ∧
    ((Retry (fun _ => none)).Cancel).Cancel = (Retry (fun _ => none)).Cancel :=
  cancel_persists_across_Execs _ 1 (by decide) (by decide)

/-- Claim C8 — refuted by the code for the "never fatal" part.  `Exec`
itself does return a `Stats` carrying the cancellation error, but the
cancellation branch leaves the in-flight attempt's channel closed, so the
abandoned operation's eventual send panics — and an unrecovered panic in a
goroutine is fatal to the whole process. -/
theorem cancellation_branch_fatal :
    (((Retry (fun _ => some "slow")).Cancel).Exec [RaceEvent.cancelled]).stats.Err =
      some cancelError ∧
    chanAfterCancelBranch.send (some "slow") = SendResult.panicked := by
  constructor <;> rfl

/-- Claim C9: with `retries ≤ 0` the loop performs zero iterations, the
operation is never started, and the returned `Stats` is
`{Err: nil, Retries: -1, Timeout: 0}` — the internal starts-at-minus-one
counter escapes through the public `Retries` field. -/
theorem Exec_nonpositive_retries (r : Retrayable) (t : List RaceEvent)
    (h : r.retries ≤ 0) :
    r.Exec t = ⟨⟨none, -1, 0⟩, 0, 0⟩ := by
  rw [Retrayable.Exec, Int.toNat_of_nonpos h]
  cases t with
  | nil => rfl
  | cons e t' => rfl

/-- Witness for C9: `SetRetries 0` returns `Retries = -1` without running
the operation. -/
theorem Exec_nonpositive_retries_witness :
    ((Retry (fun _ => some "never")).SetRetries 0).Exec
        [RaceEvent.opDone (some "never")] = ⟨⟨none, -1, 0⟩, 0, 0⟩ :=
  Exec_nonpositive_retries _ _ (by decide)

/-- Claim C4: when the k-th race (1 ≤ k ≤ n) is won by the operation arm
with a nil result, after k-1 races won by failures or timeouts, `Exec`
returns at that very iteration: nil error, `Retries = k - 1`, exactly `k`
iterations regardless of anything later in the trace, and no delay beyond
the sleeps of the earlier failed attempts. -/
theorem Exec_success_short_circuits (r : Retrayable) (t1 extra : List RaceEvent)
    (k n : Nat) (hret : r.retries = (n : Int)) (hk : 1 ≤ k) (hkn : k ≤ n)
    (hlen : t1.length = k - 1) (hpre : t1.all isNonTerminal = true)
    (_hvalid : validTrace r (t1 ++ RaceEvent.opDone none :: extra) = true) :
    r.Exec (t1 ++ RaceEvent.opDone none :: extra) =
      ⟨⟨none, (k : Int) - 1, ((t1.filter isTimeoutEvent).length : Int)⟩,
       (t1.filter isFailEvent).length * r.sleep, k⟩ := by
  have hfuel : r.retries.toNat = t1.length + ((n - k) + 1) := by rw [hret]; omega
  rw [Retrayable.Exec, hfuel,
    execFrom_success_after r t1 extra (n - k) ⟨none, -1, 0⟩ 0 0 hpre]
  simp only [ExecResult.mk.injEq, Stats.mk.injEq, eq_self_iff_true, true_and, and_true]
  omega

/-- Witness for C4: three attempts budgeted, first fails, second succeeds;
the third trace entry is never reached. -/
theorem Exec_success_short_circuits_witness :
    ((Retry (fun i => if i = 0 then some "e1" else none)).SetRetries 3).Exec
        [RaceEvent.opDone (some "e1"), RaceEvent.opDone none, RaceEvent.opDone none] =
      ⟨⟨none, 1, 0⟩, 0, 2⟩ :=
  Exec_success_short_circuits _ [RaceEvent.opDone (some "e1")] [RaceEvent.opDone none] 2 3
    (by decide) (by decide) (by decide) (by decide) (by decide) (by decide)

/-- Claim C5: when the (j+1)-st race is won by the cancellation arm (which
presupposes the cancellation signal has fired), after j races won by
failures or timeouts, `Exec` returns at that very iteration with the
cancellation-kind error: `Retries = j`, exactly `j+1` iterations regardless
of anything later in the trace, and no delay added by the cancellation
branch.  With `j = 0` (cancellation before any attempt resolves) this gives
`Retries = 0`. -/
theorem Exec_cancellation_terminates (r : Retrayable) (t1 extra : List RaceEvent)
    (j n : Nat) (hret : r.retries = (n : Int)) (hj : j + 1 ≤ n)
    (hlen : t1.length = j) (hpre : t1.all isNonTerminal = true)
    (hvalid : validTrace r (t1 ++ RaceEvent.cancelled :: extra) = true) :
    r.ctxCancelled = true ∧
    r.Exec (t1 ++ RaceEvent.cancelled :: extra) =
      ⟨⟨some cancelError, (j : Int), ((t1.filter isTimeoutEvent).length : Int)⟩,
       (t1.filter isFailEvent).length * r.sleep, j + 1⟩ := by
  constructor
  · have h := hvalid
    rw [validTrace, validFrom_append, Bool.and_eq_true] at h
    have h2 := h.2
    rw [validFrom, Bool.and_eq_true] at h2
    have h3 := h2.1
    rw [eventValid] at h3
    exact h3
  · have hfuel : r.retries.toNat = t1.length + ((n - (j + 1)) + 1) := by rw [hret]; omega
    rw [Retrayable.Exec, hfuel,
      execFrom_cancel_after r t1 extra (n - (j + 1)) ⟨none, -1, 0⟩ 0 0 hpre]
    simp only [ExecResult.mk.injEq, Stats.mk.injEq, eq_self_iff_true, true_and, and_true]
    omega

/-- Witness for C5: cancellation wins the very first race (`j = 0`), giving
`Retries = 0` and the cancellation error with no iteration beyond the
first. -/
theorem Exec_cancellation_terminates_witness :
    (((Retry (fun _ => some "e")).SetRetries 3).Cancel).ctxCancelled = true ∧
    (((Retry (fun _ => some "e")).SetRetries 3).Cancel).Exec
        [RaceEvent.cancelled, RaceEvent.opDone (some "e")] =
      ⟨⟨some cancelError, 0, 0⟩, 0, 1⟩ :=
  Exec_cancellation_terminates _ [] [RaceEvent.opDone (some "e")] 0 3
    (by decide) (by decide) (by decide) (by decide) (by decide)

/-- Claim C7: `timeout = 0` disables the timeout race arm entirely: the
timer channel can never fire, so no valid trace contains a timeout win, the
`Timeout` counter stays 0, the timeout-kind error is never recorded, and a
first race won by a (however slow) successful operation yields a successful
run. -/
theorem timeout_zero_disables_timeout (r : Retrayable) (t : List RaceEvent)
    (h0 : r.timeout = 0) (hvalid : validTrace r t = true) :
    r.timeoutCanFire = false ∧
    t.all (fun e => ! isTimeoutEvent e) = true ∧
    (r.Exec t).stats.Timeout = 0 ∧
    (r.Exec t).stats.Err ≠ some timeoutError ∧
    (r.fn 0 = none → 1 ≤ r.retries →
      validTrace r [RaceEvent.opDone none] = true ∧
      r.Exec [RaceEvent.opDone none] = ⟨⟨none, 0, 0⟩, 0, 1⟩) := by
  have hnoto : t.all (fun e => ! isTimeoutEvent e) = true :=
    validFrom_no_timeout r h0 t 0 hvalid
  have hmain :=
    execFrom_noTimeoutEvents r t r.retries.toNat ⟨none, -1, 0⟩ 0 0 hnoto rfl (by simp)
  refine ⟨by simp [Retrayable.timeoutCanFire, h0], hnoto, hmain.1, hmain.2, ?_⟩
  intro hfn h1
  refine ⟨by simp [validTrace, validFrom, eventValid, hfn], ?_⟩
  obtain ⟨m, hm⟩ : ∃ m, r.retries.toNat = m + 1 := ⟨r.retries.toNat - 1, by omega⟩
  rw [Retrayable.Exec, hm]
  simp only [execFrom, ExecResult.mk.injEq, Stats.mk.injEq, eq_self_iff_true, true_and,
    and_true]
  omega

/-- Witness for C7: default configuration (timeout 0), operation succeeds
on the first call. -/
theorem timeout_zero_disables_timeout_witness :
    (Retry (fun _ => none)).timeoutCanFire = false ∧
    ([RaceEvent.opDone none].all (fun e => ! isTimeoutEvent e) = true) ∧
    ((Retry (fun _ => none)).Exec [RaceEvent.opDone none]).stats.Timeout = 0 ∧
    ((Retry (fun _ => none)).Exec [RaceEvent.opDone none]).stats.Err ≠ some timeoutError ∧
    ((Retry (fun _ => none)).fn 0 = none → 1 ≤ (Retry (fun _ => none)).retries →
      validTrace (Retry (fun _ => none)) [RaceEvent.opDone none] = true ∧
      (Retry (fun _ => none)).Exec [RaceEvent.opDone none] = ⟨⟨none, 0, 0⟩, 0, 1⟩) :=
  timeout_zero_disables_timeout _ _ rfl (by decide)

/-- Claim C10: each iteration of the loop is resolved by exactly one race
event, in trace order: the number of resolved iterations is bounded by both
the trace length and the iteration budget, and the run's result is fully
determined by the prefix of events actually consumed — events beyond the
resolved iterations are never examined, so iteration i+1 starts only after
iteration i's race resolved. -/
theorem Exec_one_event_per_iteration (r : Retrayable) (t : List RaceEvent) :
    (r.Exec t).iters ≤ t.length ∧
    (r.Exec t).iters ≤ r.retries.toNat ∧
    r.Exec t = r.Exec (List.take (r.Exec t).iters t) := by
  obtain ⟨k, hk1, hk2, hk3, hk4⟩ := execFrom_take r t r.retries.toNat ⟨none, -1, 0⟩ 0 0
  have hiters : (r.Exec t).iters = k := by
    rw [Retrayable.Exec, hk3]
    omega
  refine ⟨?_, ?_, ?_⟩
  · rw [hiters]; exact hk1
  · rw [hiters]; exact hk2
  · rw [hiters]
    exact hk4

end Retryable
